import Mathlib

/-!
# Verification of `music.py` (music_consolidation)

A shallow embedding of the single-file music conversion CLI.  Paths are
`String`s; Python string primitives (`str.split`, `str.strip`, `str.lower`,
`str.isdigit`, `str.replace`, `in`, `startswith`, `endswith`) are modelled by
executable functions over `List Char`.  Filesystem and subprocess effects are
modelled by an explicit event trace together with an interpreter over a list
of existing file paths.
-/

set_option autoImplicit false

namespace Music

/-! ## Python string primitives over `List Char` -/

/-- `begWith p s` : does `s` start with `p`?  Model of `str.startswith`. -/
def begWith : List Char → List Char → Bool
  | [], _ => true
  | _ :: _, [] => false
  | a :: p, b :: s => a == b && begWith p s

/-- `sufWith p s` : does `s` end with `p`?  Model of `str.endswith`. -/
def sufWith (p s : List Char) : Bool :=
  begWith p.reverse s.reverse

/-- `containsSub p s` : does `p` occur as a contiguous substring of `s`?
Model of the Python expression `p in s`. -/
def containsSub (p : List Char) : List Char → Bool
  | [] => p.isEmpty
  | c :: s => begWith p (c :: s) || containsSub p s

/-- Split a char list on a separator character.  Model of `str.split(sep)`
for a one-character separator: `"".split(sep) = [""]`, separators at the
ends produce empty fields. -/
def splitOnChar (sep : Char) : List Char → List (List Char)
  | [] => [[]]
  | c :: rest =>
    match splitOnChar sep rest with
    | [] => [[]]
    | g :: gs => if c == sep then [] :: g :: gs else (c :: g) :: gs

/-- Whitespace characters stripped by Python `str.strip()`. -/
def pySpace (c : Char) : Bool :=
  c == ' ' || c == '\t' || c == '\n' || c == '\r' || c == '\x0b' || c == '\x0c'

/-- Model of `str.strip()`: drop whitespace from both ends. -/
def pyStrip (s : List Char) : List Char :=
  ((s.dropWhile pySpace).reverse.dropWhile pySpace).reverse

/-- Model of `str.lower()` on ASCII. -/
def pyLower (s : List Char) : List Char :=
  s.map Char.toLower

/-- Model of `str.isdigit()` (ASCII digits): nonempty and all digits. -/
def pyIsDigit (s : List Char) : Bool :=
  !s.isEmpty && s.all Char.isDigit

/-- Model of `int(s)` on a string of ASCII digits. -/
def pyToNat (s : List Char) : Nat :=
  s.foldl (fun n c => 10 * n + (c.toNat - 48)) 0

/-! String-level wrappers. -/

/-- `strStarts p s` : `s.startswith(p)`. -/
def strStarts (p s : String) : Bool := begWith p.data s.data

/-- `strEnds p s` : `s.endswith(p)`. -/
def strEnds (p s : String) : Bool := sufWith p.data s.data

/-- `strContainsSub p s` : the Python expression `p in s`. -/
def strContainsSub (p s : String) : Bool := containsSub p.data s.data

/-! ## Path helpers (`os.path`) -/

/-- `os.path.join root file` for a root that does not end in the separator
and a relative second component, the only case the script exercises. -/
def pathJoin (root file : String) : String := root ++ "/" ++ file

/-- The characters of a path up to (but not including) its last separator,
with trailing separators stripped unless the result is all separators:
model of `os.path.dirname`. -/
def dirnameL (l : List Char) : List Char :=
  let head := (l.reverse.dropWhile (fun c => !(c == '/'))).reverse
  if head.all (fun c => c == '/') then head
  else (head.reverse.dropWhile (fun c => c == '/')).reverse

/-- Model of `os.path.dirname`. -/
def dirname (p : String) : String := ⟨dirnameL p.data⟩

/-! ## Fixed configuration (lines 17–21 of `music.py`) -/

def music_dir : String := "/Volumes/Media/Music"

def flac_converted_dir : String := pathJoin music_dir "FLAC_CONVERTED"

def m4a_converted_dir : String := pathJoin music_dir "M4A_CONVERTED"

/-- Model of `os.path.relpath p start` for the case `p` lies under `start`,
the only case exercised by the script (all indexed files sit below
`music_dir`); otherwise the path is returned unchanged. -/
def relpath (p start : String) : String :=
  if begWith (start.data ++ ['/']) p.data then ⟨p.data.drop (start.data.length + 1)⟩
  else p

/-! ## Indexer (`index_music_files`, lines 27–44)

The `os.walk` traversal is abstracted as the list of `(root, files)` pairs
the walk yields, in order.  The function classifies files exactly as the
source does: directories whose path contains either converted-directory
string (Python `in` = substring containment) are skipped, then files ending
in `.flac`, else ending in `.m4a`, are collected joined to their root. -/

def flacsOfDir (root : String) (files : List String) : List String :=
  files.filterMap fun f =>
    if strEnds ".flac" f then some (pathJoin root f) else none

def m4asOfDir (root : String) (files : List String) : List String :=
  files.filterMap fun f =>
    if strEnds ".flac" f then none
    else if strEnds ".m4a" f then some (pathJoin root f) else none

def index_music_files : List (String × List String) → List String × List String
  | [] => ([], [])
  | (root, files) :: rest =>
    let acc := index_music_files rest
    if strContainsSub flac_converted_dir root || strContainsSub m4a_converted_dir root then
      acc
    else
      (flacsOfDir root files ++ acc.1, m4asOfDir root files ++ acc.2)

/-! ## Index Store (`save` at lines 42–43, `load_index` at lines 46–49)

The JSON layer is modelled at the value level: `json.dump`/`json.load` are
assumed to be a faithful serializer, so the snapshot file's contents are an
optional `Json` value (`none` = file absent). -/

inductive Json where
  | null : Json
  | bool (b : Bool) : Json
  | num (n : Int) : Json
  | str (s : String) : Json
  | arr (xs : List Json) : Json
  | obj (kvs : List (String × Json)) : Json

/-- The value written by `json.dump({'flac': flac_files, 'm4a': m4a_files}, f)`. -/
def save_index (flac_files m4a_files : List String) : Json :=
  .obj [("flac", .arr (flac_files.map .str)), ("m4a", .arr (m4a_files.map .str))]

/-- First value bound to a key in a JSON object (Python `dict` lookup). -/
def jlookup (kvs : List (String × Json)) (k : String) : Option Json :=
  (kvs.find? fun kv => kv.1 == k).map (·.2)

/-- Decode a JSON array of strings. -/
def decodeStrings : Json → Option (List String)
  | .arr xs => xs.mapM fun j => match j with | .str s => some s | _ => none
  | _ => none

/-- `load_index()`: read the snapshot, returning `data['flac'], data['m4a']`;
an absent or malformed snapshot is a raised error. -/
def load_index : Option Json → Except String (List String × List String)
  | none => .error "IOError: index file not found"
  | some (.obj kvs) =>
    match jlookup kvs "flac", jlookup kvs "m4a" with
    | some jf, some jm =>
      match decodeStrings jf, decodeStrings jm with
      | some fs, some ms => .ok (fs, ms)
      | _, _ => .error "TypeError: malformed snapshot"
    | _, _ => .error "KeyError: malformed snapshot"
  | some _ => .error "TypeError: malformed snapshot"

/-! ## Artist Extractor (`get_artists_with_files`, lines 51–58) -/

/-- The artist identity of a path: the segment at index 5 of
`file.split(os.sep)` when there are more than 5 segments. -/
def artistKey (file : String) : Option String :=
  let parts := splitOnChar '/' file.data
  if parts.length > 5 then some ⟨parts.getD 5 []⟩ else none

/-- One step of the Python `set.add`, modelled order-preservingly. -/
def addArtist (acc : List String) (file : String) : List String :=
  match artistKey file with
  | none => acc
  | some a => if a ∈ acc then acc else acc ++ [a]

def get_artists_with_files (files : List String) : List String :=
  files.foldl addArtist []

/-! ## Selector (`select_artists`, lines 60–72)

The operator's input line is a parameter.  A raised `IndexError` (a numeric
token whose 0-based index is `≥ len(artists)`) is modelled as `none`. -/

/-- The stripped comma-separated tokens of the input line. -/
def inputTokens (choices : String) : List (List Char) :=
  (splitOnChar ',' choices.data).map pyStrip

/-- The numeric values of the digit-only tokens, in order:
`[int(num.strip()) for num in choices.split(',') if num.strip().isdigit()]`. -/
def tokenVals (choices : String) : List Nat :=
  ((inputTokens choices).filter pyIsDigit).map pyToNat

def select_artists (artists : List String) (choices : String)
    (allow_all : Bool := false) : Option (List String) :=
  if allow_all && (pyLower (pyStrip choices.data) == "all".data) then
    some artists
  else
    let selected_indices : List Int := (tokenVals choices).map fun n : Nat => (n : Int) - 1
    let kept := selected_indices.filter fun i => 0 ≤ i
    if kept.all (fun i => i.toNat < artists.length) then
      some (kept.filterMap fun i => artists[i.toNat]?)
    else
      none

/-! ## Output path (`file.replace('.flac', '.mp3').replace('.m4a', '.mp3')`)

Python `str.replace` substitutes every (leftmost, non-overlapping)
occurrence of the pattern anywhere in the string.  The recursion is written
with explicit fuel so that it reduces definitionally. -/

def replaceAllF (pat rep : List Char) : Nat → List Char → List Char
  | _, [] => []
  | 0, s => s
  | fuel + 1, c :: s =>
    if begWith pat (c :: s) then rep ++ replaceAllF pat rep fuel (s.drop (pat.length - 1))
    else c :: replaceAllF pat rep fuel s

/-- Model of Python `s.replace(pat, rep)` for a nonempty pattern. -/
def replaceAll (pat rep : List Char) (s : List Char) : List Char :=
  replaceAllF pat rep s.length s

/-- The characters of `'.flac'`. -/
def flacPat : List Char := ['.', 'f', 'l', 'a', 'c']

/-- The characters of `'.m4a'`. -/
def m4aPat : List Char := ['.', 'm', '4', 'a']

/-- The characters of `'.mp3'`. -/
def mp3Rep : List Char := ['.', 'm', 'p', '3']

/-- Line 96: `output_file = file.replace('.flac', '.mp3').replace('.m4a', '.mp3')`. -/
def output_file (file : String) : String :=
  ⟨replaceAll m4aPat mp3Rep (replaceAll flacPat mp3Rep file.data)⟩

/-! ## Effects: events, environment, converter and batch processing -/

/-- Observable effects of a run, in order of occurrence. -/
inductive Ev where
  /-- An informational line on the shared log (`logging.info`). -/
  | logInfo (msg : String) : Ev
  /-- An error line (`error_logger.error` / `logging.error`). -/
  | logError (msg : String) : Ev
  /-- `subprocess.run(['ffmpeg', '-i', input, '-b:a', '320k', output], ...)`. -/
  | ffmpeg (input output : String) : Ev
  /-- `os.makedirs(dir, exist_ok=True)`. -/
  | makedirs (dir : String) : Ev
  /-- `shutil.move(src, dst)`. -/
  | move (src dst : String) : Ev
  /-- The three `print` lines of the final report. -/
  | printReport (origBytes convBytes : Nat) (saved : Int) : Ev
  /-- The three `logging.info` lines of the final report. -/
  | logReport (origBytes convBytes : Nat) (saved : Int) : Ev
  deriving DecidableEq

/-- Oracles for the external world: `os.path.getsize` and the exit status
of the `ffmpeg` invocation on a given input file. -/
structure Env where
  size : String → Nat
  ffmpegOk : String → Bool

/-- `convert_file` (lines 74–83): returns the success flag and the emitted
events. -/
def convert_file (env : Env) (input_file output : String) (dry_run : Bool) :
    Bool × List Ev :=
  if dry_run then
    (true, [.logInfo ("[DRY RUN] Would convert " ++ input_file ++ " to " ++ output)])
  else if env.ffmpegOk input_file then
    (true, [.ffmpeg input_file output])
  else
    (false, [.ffmpeg input_file output,
             .logError ("Error converting " ++ input_file ++
               ": Command ffmpeg returned non-zero exit status")])

/-- The guard of lines 93–95: more than 5 path segments and the segment at
index 5 among the selected artists. -/
def eligibleB (convert_artists : List String) (file : String) : Bool :=
  let parts := splitOnChar '/' file.data
  decide (parts.length > 5) && convert_artists.contains ⟨parts.getD 5 []⟩

/-- Line 100: `new_path = os.path.join(converted_dir, os.path.relpath(file, music_dir))`. -/
def newPathOf (converted_dir file : String) : String :=
  pathJoin converted_dir (relpath file music_dir)

/-- The body of the loop of `process_files` (lines 91–110) for one file:
its contribution to `total_original_size`, to `total_converted_size`, and
its emitted events. -/
def processStep (env : Env) (convert_artists : List String) (converted_dir : String)
    (dry_run : Bool) (file : String) : Nat × Nat × List Ev :=
  if eligibleB convert_artists file then
    let out := output_file file
    let origSize := env.size file
    let c := convert_file env file out dry_run
    if c.1 then
      let new_path := newPathOf converted_dir file
      if dry_run then
        (origSize, 0,
          c.2 ++ [.makedirs (dirname new_path),
                  .logInfo ("[DRY RUN] Would move " ++ file ++ " to " ++ new_path),
                  .logInfo ("[DRY RUN] Converted " ++ file ++ " to " ++ out)])
      else
        (origSize, env.size out,
          c.2 ++ [.makedirs (dirname new_path),
                  .move file new_path,
                  .logInfo ("Converted " ++ file ++ " to " ++ out)])
    else
      (origSize, 0, c.2 ++ [.logError ("Failed to convert " ++ file)])
  else
    (0, 0, [])

/-- The loop of `process_files` over the whole batch. -/
def processList (env : Env) (convert_artists : List String) (converted_dir : String)
    (dry_run : Bool) : List String → Nat × Nat × List Ev
  | [] => (0, 0, [])
  | f :: rest =>
    let s := processStep env convert_artists converted_dir dry_run f
    let r := processList env convert_artists converted_dir dry_run rest
    (s.1 + r.1, s.2.1 + r.2.1, s.2.2 ++ r.2.2)

/-- The final report of a batch (lines 112–119). -/
structure Report where
  origBytes : Nat
  convBytes : Nat
  saved : Int
  deriving DecidableEq

structure RunResult where
  totalOriginal : Nat
  totalConverted : Nat
  report : Option Report
  events : List Ev
  deriving DecidableEq

/-- `process_files` (lines 88–119). -/
def process_files (env : Env) (files convert_artists : List String)
    (converted_dir : String) (dry_run : Bool) : RunResult :=
  let t := processList env convert_artists converted_dir dry_run files
  { totalOriginal := t.1
    totalConverted := t.2.1
    report :=
      if dry_run then none
      else some ⟨t.1, t.2.1, (t.1 : Int) - (t.2.1 : Int)⟩
    events :=
      t.2.2 ++
        if dry_run then []
        else [.printReport t.1 t.2.1 ((t.1 : Int) - (t.2.1 : Int)),
              .logReport t.1 t.2.1 ((t.1 : Int) - (t.2.1 : Int))] }

/-! ## Filesystem interpretation of events

`applyEvents fs evs` is the list of existing file paths after the events:
`shutil.move` removes the source and adds the destination, a successful
`ffmpeg` run adds its output file, everything else touches no file.  (A
failing `ffmpeg` is conservatively also modelled as producing its output
path; none of the theorems below depend on that choice.) -/

def applyEv (fs : List String) : Ev → List String
  | .move src dst => fs.erase src ++ [dst]
  | .ffmpeg _ output => fs ++ [output]
  | _ => fs

def applyEvents (fs : List String) (evs : List Ev) : List String :=
  evs.foldl applyEv fs

/-! ## Supporting lemmas -/

theorem begWith_iff (p : List Char) : ∀ s, begWith p s = true ↔ ∃ t, s = p ++ t := by
  induction p with
  | nil => intro s; simp [begWith]
  | cons a p ih =>
    intro s
    cases s with
    | nil => simp [begWith]
    | cons b s =>
      simp only [begWith, Bool.and_eq_true, beq_iff_eq, ih, List.cons_append,
        List.cons.injEq]
      constructor
      · rintro ⟨rfl, t, rfl⟩; exact ⟨t, rfl, rfl⟩
      · rintro ⟨t, rfl, rfl⟩; exact ⟨rfl, t, rfl⟩

theorem begWith_refl (p : List Char) : begWith p p = true :=
  (begWith_iff p p).mpr ⟨[], by simp⟩

theorem begWith_append (p s u : List Char) (h : begWith p s = true) :
    begWith p (s ++ u) = true := by
  obtain ⟨t, rfl⟩ := (begWith_iff p s).mp h
  exact (begWith_iff p _).mpr ⟨t ++ u, by simp⟩

theorem containsSub_of_begWith (p s : List Char) (h : begWith p s = true) :
    containsSub p s = true := by
  cases s with
  | nil =>
    cases p with
    | nil => rfl
    | cons a q => simp [begWith] at h
  | cons c s => simp [containsSub, h]

/-! ### Artist Extractor lemmas (C7) -/

theorem mem_addArtist (acc : List String) (f x : String) :
    x ∈ addArtist acc f ↔ x ∈ acc ∨ artistKey f = some x := by
  unfold addArtist
  cases h : artistKey f with
  | none => simp
  | some a =>
    by_cases hm : a ∈ acc
    · simp only [if_pos hm, Option.some.injEq]
      constructor
      · exact Or.inl
      · rintro (hx | rfl)
        · exact hx
        · exact hm
    · simp only [if_neg hm, List.mem_append, List.mem_singleton, Option.some.injEq]
      constructor
      · rintro (hx | rfl)
        · exact Or.inl hx
        · exact Or.inr rfl
      · rintro (hx | rfl)
        · exact Or.inl hx
        · exact Or.inr rfl

theorem mem_foldl_addArtist (files : List String) :
    ∀ (acc : List String) (x : String),
      x ∈ files.foldl addArtist acc ↔ x ∈ acc ∨ ∃ f ∈ files, artistKey f = some x := by
  induction files with
  | nil => intro acc x; simp
  | cons f fs ih =>
    intro acc x
    simp only [List.foldl_cons, ih, mem_addArtist, List.mem_cons]
    constructor
    · rintro ((hx | hk) | ⟨g, hg, hk⟩)
      · exact Or.inl hx
      · exact Or.inr ⟨f, Or.inl rfl, hk⟩
      · exact Or.inr ⟨g, Or.inr hg, hk⟩
    · rintro (hx | ⟨g, rfl | hg, hk⟩)
      · exact Or.inl (Or.inl hx)
      · exact Or.inl (Or.inr hk)
      · exact Or.inr ⟨g, hg, hk⟩

theorem nodup_addArtist (acc : List String) (f : String) (h : acc.Nodup) :
    (addArtist acc f).Nodup := by
  unfold addArtist
  cases artistKey f with
  | none => exact h
  | some a =>
    by_cases hm : a ∈ acc
    · simpa [hm] using h
    · show (if a ∈ acc then acc else acc ++ [a]).Nodup
      rw [if_neg hm]
      exact List.Nodup.append h (List.nodup_singleton a)
        (List.disjoint_singleton.mpr hm)

theorem nodup_foldl_addArtist (files : List String) :
    ∀ acc : List String, acc.Nodup → (files.foldl addArtist acc).Nodup := by
  induction files with
  | nil => intro acc h; exact h
  | cons f fs ih => intro acc h; exact ih _ (nodup_addArtist acc f h)

/-! ### Selector lemmas (C1) -/

theorem filter_sel_eq (artists : List String) :
    ∀ L : List Nat,
      ((L.map fun n : Nat => (n : Int) - 1).filter fun i => decide (0 ≤ i)).filterMap
          (fun i => artists[i.toNat]?)
        = L.filterMap fun n => if n = 0 then none else artists[n - 1]? := by
  intro L
  induction L with
  | nil => rfl
  | cons n L ih =>
    rcases n with _ | m
    · rw [List.map_cons, List.filter_cons, List.filterMap_cons]
      norm_num
      exact ih
    · have h1 : ((m + 1 : Nat) : Int) - 1 = (m : Nat) := by push_cast; ring
      simp only [List.map_cons, List.filter_cons, h1]
      rw [if_pos (by simp)]
      simp only [List.filterMap_cons, Int.toNat_natCast, ih]
      simp

/-! ## Claim theorems -/

/-- **C7**: for every sequence of file paths, the Artist Extractor produces no
identity for a path with fewer than 6 segments (split on the separator),
produces exactly the segment at index 5 for a path with ≥ 6 segments, and
returns the distinct identities with no duplicates. -/
theorem artist_extractor_spec :
    (∀ (files : List String) (x : String),
        x ∈ get_artists_with_files files ↔ ∃ f ∈ files, artistKey f = some x)
    ∧ (∀ files : List String, (get_artists_with_files files).Nodup)
    ∧ (∀ f : String, (splitOnChar '/' f.data).length < 6 → artistKey f = none)
    ∧ (∀ f : String, 5 < (splitOnChar '/' f.data).length →
        artistKey f = some ⟨(splitOnChar '/' f.data).getD 5 []⟩) := by
  refine ⟨fun files x => ?_, fun files => ?_, fun f h => ?_, fun f h => ?_⟩
  · simpa using mem_foldl_addArtist files [] x
  · exact nodup_foldl_addArtist files [] List.nodup_nil
  · unfold artistKey
    rw [if_neg (by omega)]
  · unfold artistKey
    rw [if_pos h]

/-- Witness for C7 at concrete inputs: `"/a/b"` has 3 segments and yields no
identity; a 7-segment path yields the segment at index 5, and the returned
list has no duplicates. -/
theorem artist_extractor_spec_witness :
    artistKey "/a/b" = none
    ∧ ("4" ∈ get_artists_with_files ["/0/1/2/3/4/x/t.flac", "/a/b"]
        ↔ ∃ f ∈ ["/0/1/2/3/4/x/t.flac", "/a/b"], artistKey f = some "4")
    ∧ (get_artists_with_files ["/0/1/2/3/4/x/t.flac", "/a/b"]).Nodup :=
  ⟨artist_extractor_spec.2.2.1 "/a/b" (by decide),
   artist_extractor_spec.1 ["/0/1/2/3/4/x/t.flac", "/a/b"] "4",
   artist_extractor_spec.2.1 ["/0/1/2/3/4/x/t.flac", "/a/b"]⟩

/-- **C8**: when the "all" shortcut is enabled and the stripped, case-folded
input equals `"all"`, the Selector returns the full artist list unchanged;
with the shortcut disabled, the input `"all"` selects nothing via that rule
(it parses as a single non-numeric token and yields the empty selection). -/
theorem select_all_spec (artists : List String) (choices : String)
    (h : pyLower (pyStrip choices.data) = "all".data) :
    select_artists artists choices true = some artists
    ∧ select_artists artists "all" false = some [] := by
  constructor
  · unfold select_artists
    rw [if_pos (by simp [h])]
  · rfl

/-- Witness for C8: input `" ALL "` with the shortcut enabled returns the
whole list; input `"all"` with the shortcut disabled selects nothing. -/
theorem select_all_spec_witness :
    select_artists ["a", "b"] " ALL " true = some ["a", "b"]
    ∧ select_artists ["a", "b"] "all" false = some [] :=
  ⟨(select_all_spec ["a", "b"] " ALL " (by decide)).1,
   (select_all_spec ["a", "b"] " ALL " (by decide)).2⟩

/-- **C1 counterexample**: against the 3-item list `["a","b","c"]`, the input
`"0,2,5"` does not return the item at menu position 2 — the token `"5"`
produces the 0-based index 4, and `artists[4]` raises `IndexError`
(modelled as `none`), so the call is fatal rather than a silent drop. -/
theorem select_out_of_range_fatal :
    select_artists ["a", "b", "c"] "0,2,5" false = none
    ∧ select_artists ["a", "b", "c"] "0,2,5" false ≠ some ["b"] := by
  refine ⟨rfl, ?_⟩
  rw [(rfl : select_artists ["a", "b", "c"] "0,2,5" false = none)]
  exact fun h => Option.noConfusion h

/-- **C1 (amended)**: malformed (non-digit) tokens are silently ignored and
the literal `"0"` is dropped, but a numeric token may be fatal: whenever
every numeric token's value is at most the list length, the Selector
returns (without raising) exactly the in-range selections in order, with
`"0"` dropped; a numeric token exceeding the list length raises
`IndexError` (see the counterexample). -/
theorem select_artists_amended (artists : List String) (choices : String)
    (h : ∀ n ∈ tokenVals choices, n ≤ artists.length) :
    select_artists artists choices false =
      some ((tokenVals choices).filterMap fun n =>
        if n = 0 then none else artists[n - 1]?) := by
  unfold select_artists
  rw [if_neg (by simp)]
  rw [if_pos ?_, filter_sel_eq]
  rw [List.all_eq_true]
  intro i hi
  rw [List.mem_filter] at hi
  obtain ⟨him, hpos⟩ := hi
  rw [List.mem_map] at him
  obtain ⟨n, hn, rfl⟩ := him
  have h1 := h n hn
  have h2 : (0 : Int) ≤ (n : Int) - 1 := of_decide_eq_true hpos
  simp only [decide_eq_true_eq]
  omega

/-- Witness for C1 (amended): `"0,2,xx"` against `["a","b","c"]` returns
exactly `["b"]`, with `"0"` and the malformed token dropped. -/
theorem select_artists_amended_witness :
    select_artists ["a", "b", "c"] "0,2,xx" false = some ["b"] :=
  (select_artists_amended ["a", "b", "c"] "0,2,xx" (by decide)).trans (by decide)

/-- Decoding a serialized string array yields the original strings. -/
theorem decode_map_str (l : List String) :
    decodeStrings (.arr (l.map .str)) = some l := by
  unfold decodeStrings
  induction l with
  | nil => rfl
  | cons s l ih =>
    simp only [List.map_cons, List.mapM_cons]
    simp only [List.map] at ih
    rw [show (List.mapM (fun j => match j with | Json.str s => some s | _ => none)
        (l.map Json.str) : Option (List String))
      = some l from ih]
    rfl

/-- **C3**: saving an index snapshot and loading it back yields exactly the
same two path sequences with order preserved, and loading fails with an
error when the snapshot file is absent or malformed. -/
theorem load_save_round_trip :
    (∀ flacPaths m4aPaths : List String,
        load_index (some (save_index flacPaths m4aPaths)) = .ok (flacPaths, m4aPaths))
    ∧ (∃ e, load_index none = .error e)
    ∧ (∃ e, load_index (some (.obj [])) = .error e)
    ∧ (∃ e, load_index (some (.str "garbage")) = .error e) := by
  refine ⟨fun fs ms => ?_, ⟨_, rfl⟩, ⟨_, rfl⟩, ⟨_, rfl⟩⟩
  have hf := decode_map_str fs
  have hm := decode_map_str ms
  simp [load_index, save_index, jlookup, List.find?, hf, hm]

/-! ### Indexer lemmas (C2) -/

/-- If a pattern does not occur as a substring of a directory path `R`, and a
basename `f` contains no separator, then `F ++ "/"` cannot start the joined
path `R ++ "/" ++ f`. -/
theorem begWith_dir_false (F R f : List Char)
    (hocc : containsSub F R = false) (hf : '/' ∉ f) :
    begWith (F ++ ['/']) (R ++ '/' :: f) = false := by
  by_contra hb
  rw [Bool.not_eq_false] at hb
  obtain ⟨t, ht⟩ := (begWith_iff _ _).mp hb
  by_cases hlen : F.length ≤ R.length
  · have htake : (R ++ '/' :: f).take F.length = ((F ++ ['/']) ++ t).take F.length := by
      rw [ht]
    rw [List.take_append_of_le_length hlen, List.append_assoc, List.take_left] at htake
    have hbeg : begWith F R = true := by
      refine (begWith_iff F R).mpr ⟨R.drop F.length, ?_⟩
      conv_lhs => rw [← List.take_append_drop F.length R]
      rw [htake]
    rw [containsSub_of_begWith F R hbeg] at hocc
    exact Bool.noConfusion hocc
  · push_neg at hlen
    have hlen2 : R.length + 1 ≤ F.length := hlen
    have htake : (R ++ '/' :: f).take (R.length + 1)
        = ((F ++ ['/']) ++ t).take (R.length + 1) := by rw [ht]
    rw [List.take_append_eq_append_take, List.take_of_length_le (by omega),
      List.append_assoc, List.take_append_of_le_length hlen2] at htake
    have hone : (('/' :: f).take (R.length + 1 - R.length)) = ['/'] := by
      have : R.length + 1 - R.length = 1 := by omega
      rw [this]
      rfl
    rw [hone] at htake
    have hF : F = (R ++ ['/']) ++ F.drop (R.length + 1) := by
      conv_lhs => rw [← List.take_append_drop (R.length + 1) F]
      rw [← htake]
    rw [hF] at ht
    simp only [List.append_assoc, List.singleton_append, List.cons_append] at ht
    have hcancel : ('/' : Char) :: f = '/' :: (F.drop (R.length + 1) ++ '/' :: t) :=
      List.append_cancel_left ht
    have hfeq : f = F.drop (R.length + 1) ++ '/' :: t := by
      injection hcancel
    apply hf
    rw [hfeq]
    simp

/-- A suffix of the basename is a suffix of the joined path. -/
theorem sufWith_join (e r f : List Char) (h : sufWith e f = true) :
    sufWith e (r ++ '/' :: f) = true := by
  unfold sufWith at *
  rw [List.reverse_append, List.reverse_cons, List.append_assoc]
  exact begWith_append _ _ _ h

/-- The character list of a joined path. -/
theorem data_pathJoin (root f : String) :
    (pathJoin root f).data = root.data ++ '/' :: f.data := by
  unfold pathJoin
  rw [String.data_append, String.data_append]
  rw [show ("/" : String).data = ['/'] from rfl]
  simp

/-- **C2 counterexample**: the Indexer's exclusion is substring containment
of the converted-directory path in the walked directory (Python `in`), not
path-prefix containment: a file named `FLAC_CONVERTEDX.flac` directly under
the media root is returned, and its path *does* begin with the converted
directory path as a prefix. -/
theorem index_prefix_counterexample :
    (index_music_files [(music_dir, ["FLAC_CONVERTEDX.flac"])]).1
      = [pathJoin music_dir "FLAC_CONVERTEDX.flac"]
    ∧ strStarts flac_converted_dir (pathJoin music_dir "FLAC_CONVERTEDX.flac") = true := by
  decide

/-- **C2 (amended)**: for every walk whose basenames contain no separator,
every path in the first sequence ends in `.flac` and every path in the
second ends in `.m4a`, and no returned path lies beneath either converted
directory (neither `flac_converted_dir ++ "/"` nor `m4a_converted_dir ++ "/"`
is a prefix of it) — the exclusion being decided by *substring* containment
of the converted-directory path in the walked directory, which is strictly
coarser than path-prefix containment (see the counterexample: a returned
path may still begin with a converted-directory path when a sibling's name
extends it). -/
theorem index_no_converted_amended (walk : List (String × List String))
    (hbase : ∀ rf ∈ walk, ∀ f ∈ rf.2, '/' ∉ f.data) :
    (∀ p ∈ (index_music_files walk).1,
        strEnds ".flac" p = true
        ∧ strStarts (flac_converted_dir ++ "/") p = false
        ∧ strStarts (m4a_converted_dir ++ "/") p = false)
    ∧ (∀ p ∈ (index_music_files walk).2,
        strEnds ".m4a" p = true
        ∧ strStarts (flac_converted_dir ++ "/") p = false
        ∧ strStarts (m4a_converted_dir ++ "/") p = false) := by
  induction walk with
  | nil => exact ⟨fun p hp => absurd hp (by simp [index_music_files]),
      fun p hp => absurd hp (by simp [index_music_files])⟩
  | cons rf rest ih =>
    obtain ⟨root, files⟩ := rf
    have hbase' : ∀ rf ∈ rest, ∀ f ∈ rf.2, '/' ∉ f.data :=
      fun rf hrf => hbase rf (List.mem_cons_of_mem _ hrf)
    have ihr := ih hbase'
    by_cases hskip : (strContainsSub flac_converted_dir root
        || strContainsSub m4a_converted_dir root) = true
    · constructor
      · intro p hp
        refine ihr.1 p ?_
        simpa [index_music_files, hskip] using hp
      · intro p hp
        refine ihr.2 p ?_
        simpa [index_music_files, hskip] using hp
    · rw [Bool.or_eq_true, not_or, Bool.not_eq_true, Bool.not_eq_true] at hskip
      obtain ⟨hoccF, hoccM⟩ := hskip
      have hroot : ∀ (f : String) (ext : String), '/' ∉ f.data →
          strStarts (flac_converted_dir ++ "/") (pathJoin root f) = false
          ∧ strStarts (m4a_converted_dir ++ "/") (pathJoin root f) = false := by
        intro f ext hf
        constructor
        · show begWith (flac_converted_dir ++ "/").data (pathJoin root f).data = false
          rw [data_pathJoin, String.data_append,
            show ("/" : String).data = ['/'] from rfl]
          exact begWith_dir_false _ _ _ hoccF hf
        · show begWith (m4a_converted_dir ++ "/").data (pathJoin root f).data = false
          rw [data_pathJoin, String.data_append,
            show ("/" : String).data = ['/'] from rfl]
          exact begWith_dir_false _ _ _ hoccM hf
      have hin : ∀ f : String, f ∈ files → '/' ∉ f.data :=
        fun f hf => hbase (root, files) (List.mem_cons_self _ _) f hf
      constructor
      · intro p hp
        have hp' : p ∈ flacsOfDir root files ++ (index_music_files rest).1 := by
          simpa [index_music_files, hoccF, hoccM] using hp
        rcases List.mem_append.mp hp' with hp1 | hp2
        · obtain ⟨f, hfmem, hfeq⟩ := List.mem_filterMap.mp hp1
          by_cases hext : strEnds ".flac" f = true
          · rw [if_pos hext] at hfeq
            obtain rfl := Option.some.inj hfeq
            refine ⟨?_, hroot f ".flac" (hin f hfmem)⟩
            show sufWith (".flac").data (pathJoin root f).data = true
            rw [data_pathJoin]
            exact sufWith_join _ _ _ hext
          · rw [if_neg hext] at hfeq
            exact absurd hfeq (by simp)
        · exact ihr.1 p hp2
      · intro p hp
        have hp' : p ∈ m4asOfDir root files ++ (index_music_files rest).2 := by
          simpa [index_music_files, hoccF, hoccM] using hp
        rcases List.mem_append.mp hp' with hp1 | hp2
        · obtain ⟨f, hfmem, hfeq⟩ := List.mem_filterMap.mp hp1
          by_cases hflac : strEnds ".flac" f = true
          · rw [if_pos hflac] at hfeq
            exact absurd hfeq (by simp)
          · rw [if_neg hflac] at hfeq
            by_cases hext : strEnds ".m4a" f = true
            · rw [if_pos hext] at hfeq
              obtain rfl := Option.some.inj hfeq
              refine ⟨?_, hroot f ".m4a" (hin f hfmem)⟩
              show sufWith (".m4a").data (pathJoin root f).data = true
              rw [data_pathJoin]
              exact sufWith_join _ _ _ hext
            · rw [if_neg hext] at hfeq
              exact absurd hfeq (by simp)
        · exact ihr.2 p hp2

/-- Witness for C2 (amended) at a concrete walk with one ordinary directory:
the returned path ends in `.flac` and does not lie beneath either converted
directory. -/
theorem index_no_converted_amended_witness :
    strEnds ".flac" "/Volumes/Media/Music/Rock/x.flac" = true
    ∧ strStarts (flac_converted_dir ++ "/") "/Volumes/Media/Music/Rock/x.flac" = false
    ∧ strStarts (m4a_converted_dir ++ "/") "/Volumes/Media/Music/Rock/x.flac" = false :=
  (index_no_converted_amended [("/Volumes/Media/Music/Rock", ["x.flac"])]
      (by decide)).1 "/Volumes/Media/Music/Rock/x.flac" (by decide)

/-! ### Output-path lemmas (C9) -/

/-- Two strings with the same characters are equal. -/
theorem str_mk_eq (l : List Char) (s : String) (h : l = s.data) : String.mk l = s := by
  cases s
  exact congrArg String.mk h

/-- A replacement pattern starting with `'.'` matches nowhere in a dot-free
region, so replacement walks past that region untouched. -/
theorem replaceAllF_skip (pat rep t : List Char) (hp : pat.head? = some '.') :
    ∀ s : List Char, (∀ c ∈ s, c ≠ '.') →
      ∀ n, (s ++ t).length ≤ n →
        ∃ k, t.length ≤ k ∧
          replaceAllF pat rep n (s ++ t) = s ++ replaceAllF pat rep k t := by
  intro s
  induction s with
  | nil =>
    intro _ n hn
    exact ⟨n, by simpa using hn, by simp⟩
  | cons c s ih =>
    intro hs n hn
    obtain ⟨pt, rfl⟩ : ∃ pt, pat = '.' :: pt := by
      cases pat with
      | nil => exact absurd hp (by simp)
      | cons a pt =>
        refine ⟨pt, ?_⟩
        have : a = '.' := by simpa using hp
        rw [this]
    have hc : c ≠ '.' := hs c (List.mem_cons_self _ _)
    obtain ⟨m, rfl⟩ : ∃ m, n = m + 1 := by
      refine ⟨n - 1, ?_⟩
      have : 1 ≤ n := le_trans (by simp) hn
      omega
    have hb : begWith ('.' :: pt) (c :: (s ++ t)) = false := by
      show (('.' == c) && begWith pt (s ++ t)) = false
      rw [beq_eq_false_iff_ne.mpr (Ne.symm hc), Bool.false_and]
    have hlen : (s ++ t).length ≤ m := by
      simp only [List.cons_append, List.length_cons] at hn
      omega
    obtain ⟨k, hk, heq⟩ := ih (fun x hx => hs x (List.mem_cons_of_mem _ hx)) m hlen
    refine ⟨k, hk, ?_⟩
    show replaceAllF ('.' :: pt) rep (m + 1) (c :: (s ++ t)) = c :: s ++ replaceAllF ('.' :: pt) rep k t
    simp only [replaceAllF, hb, Bool.false_eq_true, if_false, heq, List.cons_append]

/-- At the whole pattern `'.flac'`, replacement substitutes and stops. -/
theorem replaceAllF_flac_flac (rep : List Char) (n : Nat) (hn : 1 ≤ n) :
    replaceAllF flacPat rep n flacPat = rep := by
  obtain ⟨m, rfl⟩ : ∃ m, n = m + 1 := ⟨n - 1, by omega⟩
  simp [replaceAllF, flacPat, begWith]

/-- At the whole pattern `'.m4a'`, replacement substitutes and stops. -/
theorem replaceAllF_m4a_m4a (rep : List Char) (n : Nat) (hn : 1 ≤ n) :
    replaceAllF m4aPat rep n m4aPat = rep := by
  obtain ⟨m, rfl⟩ : ∃ m, n = m + 1 := ⟨n - 1, by omega⟩
  simp [replaceAllF, m4aPat, begWith]

/-- `'.flac'` does not occur in `'.m4a'`. -/
theorem replaceAllF_flac_m4a (rep : List Char) (n : Nat) (hn : 4 ≤ n) :
    replaceAllF flacPat rep n m4aPat = m4aPat := by
  obtain ⟨m, rfl⟩ : ∃ m, n = m + 1 + 1 + 1 + 1 := ⟨n - 4, by omega⟩
  simp [replaceAllF, flacPat, m4aPat, begWith]

/-- `'.m4a'` does not occur in `'.mp3'`. -/
theorem replaceAllF_m4a_mp3 (rep : List Char) (n : Nat) (hn : 4 ≤ n) :
    replaceAllF m4aPat rep n mp3Rep = mp3Rep := by
  obtain ⟨m, rfl⟩ : ∃ m, n = m + 1 + 1 + 1 + 1 := ⟨n - 4, by omega⟩
  simp [replaceAllF, m4aPat, mp3Rep, begWith]

theorem replaceAll_flac_ext (s : List Char) (hs : ∀ c ∈ s, c ≠ '.') :
    replaceAll flacPat mp3Rep (s ++ flacPat) = s ++ mp3Rep := by
  unfold replaceAll
  obtain ⟨k, hk, heq⟩ := replaceAllF_skip flacPat mp3Rep flacPat rfl s hs
    (s ++ flacPat).length le_rfl
  rw [heq, replaceAllF_flac_flac mp3Rep k (by simp [flacPat] at hk; omega)]

theorem replaceAll_m4a_ext (s : List Char) (hs : ∀ c ∈ s, c ≠ '.') :
    replaceAll m4aPat mp3Rep (s ++ m4aPat) = s ++ mp3Rep := by
  unfold replaceAll
  obtain ⟨k, hk, heq⟩ := replaceAllF_skip m4aPat mp3Rep m4aPat rfl s hs
    (s ++ m4aPat).length le_rfl
  rw [heq, replaceAllF_m4a_m4a mp3Rep k (by simp [m4aPat] at hk; omega)]

theorem replaceAll_flac_skips_m4a (s : List Char) (hs : ∀ c ∈ s, c ≠ '.') :
    replaceAll flacPat mp3Rep (s ++ m4aPat) = s ++ m4aPat := by
  unfold replaceAll
  obtain ⟨k, hk, heq⟩ := replaceAllF_skip flacPat mp3Rep m4aPat rfl s hs
    (s ++ m4aPat).length le_rfl
  rw [heq, replaceAllF_flac_m4a mp3Rep k (by simp [m4aPat] at hk; omega)]

theorem replaceAll_m4a_skips_mp3 (s : List Char) (hs : ∀ c ∈ s, c ≠ '.') :
    replaceAll m4aPat mp3Rep (s ++ mp3Rep) = s ++ mp3Rep := by
  unfold replaceAll
  obtain ⟨k, hk, heq⟩ := replaceAllF_skip m4aPat mp3Rep mp3Rep rfl s hs
    (s ++ mp3Rep).length le_rfl
  rw [heq, replaceAllF_m4a_mp3 mp3Rep k (by simp [mp3Rep] at hk; omega)]

/-- Separator-free suffixes do not affect `dirname`. -/
theorem dirnameL_append_sep_free (s t t' : List Char)
    (ht : ∀ c ∈ t, c ≠ '/') (ht' : ∀ c ∈ t', c ≠ '/') :
    dirnameL (s ++ t) = dirnameL (s ++ t') := by
  have key : ∀ u : List Char, (∀ c ∈ u, c ≠ '/') →
      (s ++ u).reverse.dropWhile (fun c => !(c == '/'))
        = s.reverse.dropWhile (fun c => !(c == '/')) := by
    intro u hu
    rw [List.reverse_append, List.dropWhile_append]
    have hnil : u.reverse.dropWhile (fun c => !(c == '/')) = [] := by
      rw [List.dropWhile_eq_nil_iff]
      intro x hx
      simpa using hu x (List.mem_reverse.mp hx)
    simp [hnil]
  unfold dirnameL
  rw [key t ht, key t' ht']

/-- The Converter leaves its input file in place in every mode: its only
filesystem effect is the external tool producing the output file. -/
theorem convert_preserves (env : Env) (f out : String) (b : Bool) (fs : List String)
    (h : f ∈ fs) : f ∈ applyEvents fs (convert_file env f out b).2 := by
  unfold convert_file
  by_cases hb : b
  · simpa [hb, applyEvents, applyEv] using h
  · by_cases hok : env.ffmpegOk f
    · simp [hb, hok, applyEvents, applyEv]
      exact Or.inl h
    · simp [hb, hok, applyEvents, applyEv]
      exact Or.inl h

/-- **C9 counterexample**: the output path is computed by *global* substring
replacement, not extension substitution: for a file inside a directory
named `b.flac`, the `.flac` occurrence in the directory name is also
replaced, so the output lands in a *different* directory. -/
theorem output_file_counterexample :
    output_file "/a/b.flac/c.flac" = "/a/b.mp3/c.mp3"
    ∧ output_file "/a/b.flac/c.flac" ≠ "/a/b.flac/c.mp3"
    ∧ dirname (output_file "/a/b.flac/c.flac") ≠ dirname "/a/b.flac/c.flac" := by
  decide

/-- **C9 (amended)**: the output path is the input with every occurrence of
`'.flac'` and then `'.m4a'` replaced by `'.mp3'`.  When the extension is the
only dot in the path (no other `'.flac'`/`'.m4a'` occurrence), this is
exactly extension substitution: the converted file is written beside the
original in the same directory; and the Converter never removes or moves
its input file in any mode. -/
theorem output_file_amended (stem : String) (h : '.' ∉ stem.data) :
    output_file (stem ++ ".flac") = stem ++ ".mp3"
    ∧ output_file (stem ++ ".m4a") = stem ++ ".mp3"
    ∧ dirname (output_file (stem ++ ".flac")) = dirname (stem ++ ".flac")
    ∧ dirname (output_file (stem ++ ".m4a")) = dirname (stem ++ ".m4a")
    ∧ (∀ (env : Env) (out : String) (b : Bool) (fs : List String),
        stem ++ ".flac" ∈ fs →
        stem ++ ".flac" ∈ applyEvents fs (convert_file env (stem ++ ".flac") out b).2) := by
  have hs : ∀ c ∈ stem.data, c ≠ '.' := fun c hc he => h (he ▸ hc)
  have hdf : (stem ++ ".flac").data = stem.data ++ flacPat := by
    rw [String.data_append]; rfl
  have hdm : (stem ++ ".m4a").data = stem.data ++ m4aPat := by
    rw [String.data_append]; rfl
  have hflac : output_file (stem ++ ".flac") = stem ++ ".mp3" := by
    unfold output_file
    rw [hdf, replaceAll_flac_ext stem.data hs, replaceAll_m4a_skips_mp3 stem.data hs]
    refine str_mk_eq _ _ ?_
    rw [String.data_append]
    rfl
  have hm4a : output_file (stem ++ ".m4a") = stem ++ ".mp3" := by
    unfold output_file
    rw [hdm, replaceAll_flac_skips_m4a stem.data hs, replaceAll_m4a_ext stem.data hs]
    refine str_mk_eq _ _ ?_
    rw [String.data_append]
    rfl
  refine ⟨hflac, hm4a, ?_, ?_, fun env out b fs hmem => convert_preserves env _ out b fs hmem⟩
  · rw [hflac]
    unfold dirname
    refine congrArg String.mk ?_
    rw [hdf, show (stem ++ ".mp3").data = stem.data ++ mp3Rep by rw [String.data_append]; rfl]
    exact dirnameL_append_sep_free _ _ _ (by decide) (by decide)
  · rw [hm4a]
    unfold dirname
    refine congrArg String.mk ?_
    rw [hdm, show (stem ++ ".mp3").data = stem.data ++ mp3Rep by rw [String.data_append]; rfl]
    exact dirnameL_append_sep_free _ _ _ (by decide) (by decide)

/-- Witness for C9 (amended) at the dot-free stem `"/x/track"`. -/
theorem output_file_amended_witness :
    output_file ("/x/track" ++ ".flac") = "/x/track" ++ ".mp3"
    ∧ output_file ("/x/track" ++ ".m4a") = "/x/track" ++ ".mp3" :=
  ⟨(output_file_amended "/x/track" (by decide)).1,
   (output_file_amended "/x/track" (by decide)).2.1⟩

/-! ### Batch-processing lemmas (C4, C5, C6, C10) -/

/-- In live mode the Converter succeeds exactly when the external tool does. -/
theorem convert_fst (env : Env) (f out : String) :
    (convert_file env f out false).1 = env.ffmpegOk f := by
  unfold convert_file
  by_cases h : env.ffmpegOk f = true <;> simp [h]

/-- The per-file contribution to `total_original_size`: the original size is
added as soon as conversion is attempted, in every mode, regardless of
success. -/
theorem processStep_fst (env : Env) (a : List String) (d : String) (dr : Bool)
    (f : String) :
    (processStep env a d dr f).1 = if eligibleB a f then env.size f else 0 := by
  unfold processStep
  by_cases he : eligibleB a f = true
  · rw [if_pos he, if_pos he]
    cases hc : (convert_file env f (output_file f) dr).1 <;> cases dr <;> simp [hc]
  · rw [if_neg he, if_neg he]

/-- The per-file contribution to `total_converted_size` in live mode: added
only when the conversion succeeded. -/
theorem processStep_snd (env : Env) (a : List String) (d : String) (f : String) :
    (processStep env a d false f).2.1
      = if eligibleB a f && env.ffmpegOk f then env.size (output_file f) else 0 := by
  unfold processStep
  by_cases he : eligibleB a f = true
  · rw [if_pos he]
    rw [show (eligibleB a f && env.ffmpegOk f) = env.ffmpegOk f by rw [he, Bool.true_and]]
    cases hok : env.ffmpegOk f <;> simp [convert_fst, hok]
  · rw [if_neg he]
    rw [show (eligibleB a f && env.ffmpegOk f) = false by
      rw [Bool.eq_false_iff.mpr he, Bool.false_and]]
    rfl

theorem processList_orig (env : Env) (a : List String) (d : String) (dr : Bool) :
    ∀ files : List String,
      (processList env a d dr files).1
        = ((files.filter (eligibleB a)).map env.size).sum := by
  intro files
  induction files with
  | nil => rfl
  | cons f rest ih =>
    show (processStep env a d dr f).1 + (processList env a d dr rest).1 = _
    rw [List.filter_cons, processStep_fst, ih]
    by_cases he : eligibleB a f = true <;> simp [he]

theorem processList_conv (env : Env) (a : List String) (d : String) :
    ∀ files : List String,
      (processList env a d false files).2.1
        = ((files.filter fun f => eligibleB a f && env.ffmpegOk f).map
            fun f => env.size (output_file f)).sum := by
  intro files
  induction files with
  | nil => rfl
  | cons f rest ih =>
    show (processStep env a d false f).2.1 + (processList env a d false rest).2.1 = _
    rw [List.filter_cons, processStep_snd, ih]
    by_cases he : (eligibleB a f && env.ffmpegOk f) = true <;> simp [he]

/-- Is an event one of the final-report events? -/
def isReportEv : Ev → Bool
  | .printReport _ _ _ => true
  | .logReport _ _ _ => true
  | _ => false

/-- The per-file loop never emits a report event. -/
theorem processStep_no_report (env : Env) (a : List String) (d : String) (dr : Bool)
    (f : String) : ∀ e ∈ (processStep env a d dr f).2.2, isReportEv e = false := by
  intro e he
  unfold processStep at he
  by_cases hel : eligibleB a f = true
  · rw [if_pos hel] at he
    by_cases hdr : dr = true
    · subst hdr
      simp [convert_file] at he
      rcases he with rfl | rfl | rfl | rfl <;> rfl
    · rw [Bool.not_eq_true] at hdr
      subst hdr
      by_cases hok : env.ffmpegOk f = true
      · simp [convert_file, hok] at he
        rcases he with rfl | rfl | rfl | rfl <;> rfl
      · simp [convert_file, hok] at he
        rcases he with rfl | rfl | rfl <;> rfl
  · rw [if_neg hel] at he
    exact absurd he (List.not_mem_nil e)

theorem processList_no_report (env : Env) (a : List String) (d : String) (dr : Bool) :
    ∀ files : List String, ∀ e ∈ (processList env a d dr files).2.2, isReportEv e = false := by
  intro files
  induction files with
  | nil => intro e he; exact absurd he (List.not_mem_nil e)
  | cons f rest ih =>
    intro e he
    rcases List.mem_append.mp he with h1 | h2
    · exact processStep_no_report env a d dr f e h1
    · exact ih e h2

/-- Shape of the events emitted for one file in live mode. -/
theorem processStep_events_live (env : Env) (a : List String) (d : String)
    (f : String) (e : Ev) (he : e ∈ (processStep env a d false f).2.2) :
    (∃ m, e = .logInfo m) ∨ (∃ m, e = .logError m) ∨ (∃ dir, e = .makedirs dir)
    ∨ e = .ffmpeg f (output_file f)
    ∨ (env.ffmpegOk f = true ∧ e = .move f (newPathOf d f)) := by
  unfold processStep at he
  by_cases hel : eligibleB a f = true
  · rw [if_pos hel] at he
    by_cases hok : env.ffmpegOk f = true
    · simp [convert_file, hok] at he
      rcases he with rfl | rfl | rfl | rfl
      · exact Or.inr (Or.inr (Or.inr (Or.inl rfl)))
      · exact Or.inr (Or.inr (Or.inl ⟨_, rfl⟩))
      · exact Or.inr (Or.inr (Or.inr (Or.inr ⟨hok, rfl⟩)))
      · exact Or.inl ⟨_, rfl⟩
    · simp [convert_file, hok] at he
      rcases he with rfl | rfl | rfl
      · exact Or.inr (Or.inr (Or.inr (Or.inl rfl)))
      · exact Or.inr (Or.inl ⟨_, rfl⟩)
      · exact Or.inr (Or.inl ⟨_, rfl⟩)
  · rw [if_neg hel] at he
    exact absurd he (List.not_mem_nil e)

/-- Shape of the events emitted for a whole batch in live mode. -/
theorem processList_events_live (env : Env) (a : List String) (d : String) :
    ∀ (files : List String) (e : Ev), e ∈ (processList env a d false files).2.2 →
      (∃ m, e = .logInfo m) ∨ (∃ m, e = .logError m) ∨ (∃ dir, e = .makedirs dir)
      ∨ (∃ g, g ∈ files ∧ e = .ffmpeg g (output_file g))
      ∨ (∃ g, g ∈ files ∧ env.ffmpegOk g = true ∧ e = .move g (newPathOf d g)) := by
  intro files
  induction files with
  | nil => intro e he; exact absurd he (List.not_mem_nil e)
  | cons f rest ih =>
    intro e he
    rcases List.mem_append.mp he with h1 | h2
    · rcases processStep_events_live env a d f e h1 with h | h | h | h | h
      · exact Or.inl h
      · exact Or.inr (Or.inl h)
      · exact Or.inr (Or.inr (Or.inl h))
      · exact Or.inr (Or.inr (Or.inr (Or.inl ⟨f, List.mem_cons_self _ _, h⟩)))
      · exact Or.inr (Or.inr (Or.inr (Or.inr ⟨f, List.mem_cons_self _ _, h.1, h.2⟩)))
    · rcases ih e h2 with h | h | h | ⟨g, hg, h⟩ | ⟨g, hg, h⟩
      · exact Or.inl h
      · exact Or.inr (Or.inl h)
      · exact Or.inr (Or.inr (Or.inl h))
      · exact Or.inr (Or.inr (Or.inr (Or.inl ⟨g, List.mem_cons_of_mem _ hg, h⟩)))
      · exact Or.inr (Or.inr (Or.inr (Or.inr ⟨g, List.mem_cons_of_mem _ hg, h⟩)))

/-- A file no event moves away stays present. -/
theorem mem_applyEvents_of_moves_ne (x : String) :
    ∀ (evs : List Ev) (fs : List String), x ∈ fs →
      (∀ src dst : String, Ev.move src dst ∈ evs → src ≠ x) →
      x ∈ applyEvents fs evs := by
  intro evs
  induction evs with
  | nil => intro fs hx _; exact hx
  | cons e evs ih =>
    intro fs hx hmv
    show x ∈ applyEvents (applyEv fs e) evs
    refine ih (applyEv fs e) ?_ (fun src dst hm => hmv src dst (List.mem_cons_of_mem _ hm))
    cases e with
    | move src dst =>
      have hne : src ≠ x := hmv src dst (List.mem_cons_self _ _)
      exact List.mem_append.mpr (Or.inl ((List.mem_erase_of_ne (Ne.symm hne)).mpr hx))
    | ffmpeg i o => exact List.mem_append.mpr (Or.inl hx)
    | logInfo m => exact hx
    | logError m => exact hx
    | makedirs dir => exact hx
    | printReport o c s => exact hx
    | logReport o c s => exact hx

/-- A path absent initially and never created stays absent. -/
theorem not_mem_applyEvents (y : String) :
    ∀ (evs : List Ev) (fs : List String), y ∉ fs →
      (∀ src dst : String, Ev.move src dst ∈ evs → dst ≠ y) →
      (∀ i o : String, Ev.ffmpeg i o ∈ evs → o ≠ y) →
      y ∉ applyEvents fs evs := by
  intro evs
  induction evs with
  | nil => intro fs hy _ _; exact hy
  | cons e evs ih =>
    intro fs hy hmv hff
    show y ∉ applyEvents (applyEv fs e) evs
    refine ih (applyEv fs e) ?_
      (fun src dst hm => hmv src dst (List.mem_cons_of_mem _ hm))
      (fun i o hm => hff i o (List.mem_cons_of_mem _ hm))
    cases e with
    | move src dst =>
      intro hmem
      rcases List.mem_append.mp hmem with h1 | h2
      · exact hy (List.mem_of_mem_erase h1)
      · exact hmv src dst (List.mem_cons_self _ _) (List.mem_singleton.mp h2).symm
    | ffmpeg i o =>
      intro hmem
      rcases List.mem_append.mp hmem with h1 | h2
      · exact hy h1
      · exact hff i o (List.mem_cons_self _ _) (List.mem_singleton.mp h2).symm
    | logInfo m => exact hy
    | logError m => exact hy
    | makedirs dir => exact hy
    | printReport o c s => exact hy
    | logReport o c s => exact hy

/-- **C4**: outside dry-run, the batch total of original bytes is the sum of
the original sizes of every file for which conversion was attempted (added
before success is known), the total of converted bytes sums converted sizes
only over files whose conversion succeeded, and the printed/logged "space
saved" is exactly total original minus total converted as an integer
(negative values are not clamped); in dry-run mode no report is printed or
logged. -/
theorem run_report_spec (env : Env) (files convert_artists : List String)
    (converted_dir : String) :
    ((process_files env files convert_artists converted_dir false).totalOriginal
        = ((files.filter (eligibleB convert_artists)).map env.size).sum)
    ∧ ((process_files env files convert_artists converted_dir false).totalConverted
        = ((files.filter fun f => eligibleB convert_artists f && env.ffmpegOk f).map
            fun f => env.size (output_file f)).sum)
    ∧ ((process_files env files convert_artists converted_dir false).report
        = some
            { origBytes := (process_files env files convert_artists converted_dir false).totalOriginal
              convBytes := (process_files env files convert_artists converted_dir false).totalConverted
              saved :=
                ((process_files env files convert_artists converted_dir false).totalOriginal : Int)
                  - ((process_files env files convert_artists converted_dir false).totalConverted : Int) })
    ∧ ((process_files env files convert_artists converted_dir true).report = none)
    ∧ (∀ (o c : Nat) (s : Int),
        Ev.printReport o c s ∉ (process_files env files convert_artists converted_dir true).events
        ∧ Ev.logReport o c s ∉ (process_files env files convert_artists converted_dir true).events) := by
  refine ⟨processList_orig env convert_artists converted_dir false files,
    processList_conv env convert_artists converted_dir files, rfl, rfl, fun o c s => ⟨?_, ?_⟩⟩
  · intro hmem
    have hmem' : Ev.printReport o c s
        ∈ (processList env convert_artists converted_dir true files).2.2 := by
      simpa [process_files] using hmem
    have := processList_no_report env convert_artists converted_dir true files _ hmem'
    exact Bool.noConfusion this
  · intro hmem
    have hmem' : Ev.logReport o c s
        ∈ (processList env convert_artists converted_dir true files).2.2 := by
      simpa [process_files] using hmem
    have := processList_no_report env convert_artists converted_dir true files _ hmem'
    exact Bool.noConfusion this

/-- **C5** (code bug): the claim — and the script's own `--dry-run` help text,
"Perform a dry run without making any changes" — says dry-run performs zero
filesystem mutation and skips the Relocator step entirely, but line 101
executes `os.makedirs(os.path.dirname(new_path), exist_ok=True)` *before*
the `dry_run` test: processing one eligible file in dry-run mode emits a
directory-creation effect under the converted tree. -/
theorem dry_run_still_makedirs :
    Ev.makedirs "/Volumes/Media/Music/FLAC_CONVERTED/Rock/Artist/album"
      ∈ (process_files ⟨fun _ => 0, fun _ => true⟩
          ["/Volumes/Media/Music/Rock/Artist/album/t.flac"] ["Artist"]
          flac_converted_dir true).events
    ∧ dirname (newPathOf flac_converted_dir "/Volumes/Media/Music/Rock/Artist/album/t.flac")
      = "/Volumes/Media/Music/FLAC_CONVERTED/Rock/Artist/album" := by
  decide

/-- **C6**: when the external tool exits non-zero for a file in live mode,
the Converter logs an error naming the path and returns failure (and
returns success on exit code zero); that file is never moved, it is still
present after applying the whole run's effects while its converted-tree
destination never comes into existence, and the batch continues with the
remaining files. -/
theorem convert_failure_spec (env : Env) (convert_artists : List String)
    (converted_dir : String) (files : List String) (f : String) (fs₀ : List String)
    (hfail : env.ffmpegOk f = false)
    (hmem : f ∈ fs₀)
    (hnew : newPathOf converted_dir f ∉ fs₀)
    (hout : ∀ g ∈ files, output_file g ≠ newPathOf converted_dir f)
    (huniq : ∀ g ∈ files, newPathOf converted_dir g = newPathOf converted_dir f → g = f) :
    (convert_file env f (output_file f) false).1 = false
    ∧ Ev.logError ("Error converting " ++ f ++ ": Command ffmpeg returned non-zero exit status")
        ∈ (convert_file env f (output_file f) false).2
    ∧ (∀ g : String, env.ffmpegOk g = true → (convert_file env g (output_file g) false).1 = true)
    ∧ (∀ dst : String,
        Ev.move f dst ∉ (process_files env files convert_artists converted_dir false).events)
    ∧ f ∈ applyEvents fs₀ (process_files env files convert_artists converted_dir false).events
    ∧ newPathOf converted_dir f
        ∉ applyEvents fs₀ (process_files env files convert_artists converted_dir false).events
    ∧ (∀ rest : List String,
        (processList env convert_artists converted_dir false (f :: rest)).2.2
          = (processStep env convert_artists converted_dir false f).2.2
            ++ (processList env convert_artists converted_dir false rest).2.2) := by
  have hsrc : ∀ src dst : String,
      Ev.move src dst ∈ (process_files env files convert_artists converted_dir false).events →
      src ≠ f := by
    intro src dst hmv
    have hmv' : Ev.move src dst
        ∈ (processList env convert_artists converted_dir false files).2.2
          ++ [Ev.printReport _ _ _, Ev.logReport _ _ _] := hmv
    rcases List.mem_append.mp hmv' with h1 | h2
    · rcases processList_events_live env convert_artists converted_dir files _ h1 with
        ⟨m, hm⟩ | ⟨m, hm⟩ | ⟨dir, hm⟩ | ⟨g, _, hm⟩ | ⟨g, _, hgok, hm⟩
      · exact absurd hm (by simp)
      · exact absurd hm (by simp)
      · exact absurd hm (by simp)
      · exact absurd hm (by simp)
      · obtain ⟨rfl, -⟩ : src = g ∧ dst = newPathOf converted_dir g := by
          injection hm with h1 h2; exact ⟨h1, h2⟩
        intro hgf
        rw [hgf] at hgok
        rw [hfail] at hgok
        exact Bool.noConfusion hgok
    · simp at h2
  refine ⟨?_, ?_, ?_, ?_, ?_, ?_, fun rest => rfl⟩
  · rw [convert_fst, hfail]
  · simp [convert_file, hfail]
  · intro g hg
    rw [convert_fst, hg]
  · intro dst hmv
    exact hsrc f dst hmv rfl
  · exact mem_applyEvents_of_moves_ne f _ fs₀ hmem hsrc
  · refine not_mem_applyEvents _ _ fs₀ hnew ?_ ?_
    · intro src dst hmv
      have hmv' : Ev.move src dst
          ∈ (processList env convert_artists converted_dir false files).2.2
            ++ [Ev.printReport _ _ _, Ev.logReport _ _ _] := hmv
      rcases List.mem_append.mp hmv' with h1 | h2
      · rcases processList_events_live env convert_artists converted_dir files _ h1 with
          ⟨m, hm⟩ | ⟨m, hm⟩ | ⟨dir, hm⟩ | ⟨g, _, hm⟩ | ⟨g, hgmem, hgok, hm⟩
        · exact absurd hm (by simp)
        · exact absurd hm (by simp)
        · exact absurd hm (by simp)
        · exact absurd hm (by simp)
        · obtain ⟨hsg, hdg⟩ : src = g ∧ dst = newPathOf converted_dir g := by
            injection hm with h1 h2; exact ⟨h1, h2⟩
          intro hdy
          have hgf : g = f := huniq g hgmem (by rw [← hdg, hdy])
          rw [hgf, hfail] at hgok
          exact Bool.noConfusion hgok
      · simp at h2
    · intro i o hff
      have hff' : Ev.ffmpeg i o
          ∈ (processList env convert_artists converted_dir false files).2.2
            ++ [Ev.printReport _ _ _, Ev.logReport _ _ _] := hff
      rcases List.mem_append.mp hff' with h1 | h2
      · rcases processList_events_live env convert_artists converted_dir files _ h1 with
          ⟨m, hm⟩ | ⟨m, hm⟩ | ⟨dir, hm⟩ | ⟨g, hgmem, hm⟩ | ⟨g, _, _, hm⟩
        · exact absurd hm (by simp)
        · exact absurd hm (by simp)
        · exact absurd hm (by simp)
        · obtain ⟨-, hog⟩ : i = g ∧ o = output_file g := by
            injection hm with h1 h2; exact ⟨h1, h2⟩
          rw [hog]
          exact hout g hgmem
        · exact absurd hm (by simp)
      · simp at h2

/-- Witness for C6: a single eligible file whose conversion fails is still
present after the run, and its converted-tree destination is not. -/
theorem convert_failure_spec_witness :
    "/Volumes/Media/Music/Rock/Artist/album/t.flac"
      ∈ applyEvents ["/Volumes/Media/Music/Rock/Artist/album/t.flac"]
          (process_files ⟨fun _ => 0, fun _ => false⟩
            ["/Volumes/Media/Music/Rock/Artist/album/t.flac"] ["Artist"]
            flac_converted_dir false).events
    ∧ newPathOf flac_converted_dir "/Volumes/Media/Music/Rock/Artist/album/t.flac"
        ∉ applyEvents ["/Volumes/Media/Music/Rock/Artist/album/t.flac"]
            (process_files ⟨fun _ => 0, fun _ => false⟩
              ["/Volumes/Media/Music/Rock/Artist/album/t.flac"] ["Artist"]
              flac_converted_dir false).events :=
  ⟨(convert_failure_spec ⟨fun _ => 0, fun _ => false⟩ ["Artist"] flac_converted_dir
      ["/Volumes/Media/Music/Rock/Artist/album/t.flac"]
      "/Volumes/Media/Music/Rock/Artist/album/t.flac"
      ["/Volumes/Media/Music/Rock/Artist/album/t.flac"]
      rfl (by decide) (by decide) (by decide) (by decide)).2.2.2.2.1,
   (convert_failure_spec ⟨fun _ => 0, fun _ => false⟩ ["Artist"] flac_converted_dir
      ["/Volumes/Media/Music/Rock/Artist/album/t.flac"]
      "/Volumes/Media/Music/Rock/Artist/album/t.flac"
      ["/Volumes/Media/Music/Rock/Artist/album/t.flac"]
      rfl (by decide) (by decide) (by decide) (by decide)).2.2.2.2.2.1⟩

/-- **C10**: a file with 5 or fewer path segments, or whose segment at index
5 is not among the selected artists, contributes nothing to a batch: no
events (no conversion, no move, no directory creation, no log entry) and
nothing to either byte total — removing it from the batch leaves the whole
run result unchanged. -/
theorem skip_ineligible (env : Env) (convert_artists : List String)
    (converted_dir : String) (dry_run : Bool) (f : String) (rest : List String)
    (h : eligibleB convert_artists f = false) :
    processStep env convert_artists converted_dir dry_run f = (0, 0, [])
    ∧ process_files env (f :: rest) convert_artists converted_dir dry_run
      = process_files env rest convert_artists converted_dir dry_run := by
  have hstep : processStep env convert_artists converted_dir dry_run f = (0, 0, []) := by
    unfold processStep
    rw [if_neg]
    rw [h]
    exact Bool.noConfusion
  refine ⟨hstep, ?_⟩
  unfold process_files
  have hlist : processList env convert_artists converted_dir dry_run (f :: rest)
      = processList env convert_artists converted_dir dry_run rest := by
    show ((processStep env convert_artists converted_dir dry_run f).1
            + (processList env convert_artists converted_dir dry_run rest).1,
          (processStep env convert_artists converted_dir dry_run f).2.1
            + (processList env convert_artists converted_dir dry_run rest).2.1,
          (processStep env convert_artists converted_dir dry_run f).2.2
            ++ (processList env convert_artists converted_dir dry_run rest).2.2)
        = processList env convert_artists converted_dir dry_run rest
    rw [hstep]
    simp
  rw [hlist]

/-- Witness for C10: a 3-segment path is skipped silently, leaving the run
identical to the run without it. -/
theorem skip_ineligible_witness :
    process_files ⟨fun _ => 0, fun _ => true⟩ ["/a/b.flac"] [] flac_converted_dir false
      = process_files ⟨fun _ => 0, fun _ => true⟩ [] [] flac_converted_dir false :=
  (skip_ineligible ⟨fun _ => 0, fun _ => true⟩ [] flac_converted_dir false
      "/a/b.flac" [] (by decide)).2

end Music
